import Mathlib

/-!
Formal model of the `icm` persistent-memory service (memory store, concept
graph, fact extractor and JSON-RPC line server), embedded shallowly from the
Rust sources in `crates/icm-core`, `crates/icm-store`, `crates/icm-mcp` and
`crates/icm-cli`.

The SQLite database is modelled as lists of typed rows (list order = rowid
order); each store operation is a pure function on that state, returning
`Except IcmError` where the Rust returns `IcmResult`.  SQLite REAL values are
modelled as exact rationals.  Timestamps are modelled as integers printed and
parsed through an explicit codec.  The external `serde_json` / `chrono`
encoders are modelled as an explicit `Codec` record of print/parse functions,
matching the call sites `serde_json::to_string`, `serde_json::from_str`,
`to_rfc3339` and `parse_from_rfc3339`; theorems that depend on the codec
round-tripping state that hypothesis explicitly.
-/

namespace Icm

/-- Importance levels, from `icm-core/src/memory.rs` (`enum Importance`). -/
inductive Importance where
  | critical
  | high
  | medium
  | low
deriving DecidableEq, Repr

/-- `Display for Importance` in `memory.rs`. -/
def importanceToString : Importance → String
  | .critical => "critical"
  | .high => "high"
  | .medium => "medium"
  | .low => "low"

/-- Rust `str::to_lowercase`, modelled character-wise (all the strings the
program compares after lowering are ASCII). -/
def lowercaseStr (s : String) : String :=
  String.mk (s.data.map Char.toLower)

/-- `FromStr for Importance` in `memory.rs`: lowercases, then matches the four
literals, anything else is an error (`none`). -/
def importanceFromStr (s : String) : Option Importance :=
  match lowercaseStr s with
  | "critical" => some .critical
  | "high" => some .high
  | "medium" => some .medium
  | "low" => some .low
  | _ => none

/-- Memory provenance, from `memory.rs` (`enum MemorySource`). -/
inductive MemorySource where
  | claudeCode (sessionId : String) (filePath : Option String)
  | conversation (threadId : String)
  | manual
deriving DecidableEq, Repr

/-- `fn source_type` in `icm-store/src/store.rs`. -/
def sourceTypeStr : MemorySource → String
  | .claudeCode _ _ => "claude_code"
  | .conversation _ => "conversation"
  | .manual => "manual"

/-- A concept label (`struct Label` in `memoir.rs`); `nspace` stands for the
Rust field `namespace`, which is a reserved word here. -/
structure Label where
  nspace : String
  value : String
deriving DecidableEq, Repr

/-- The in-program `Memory` value, from `memory.rs` (`struct Memory`).
`DateTime<Utc>` is modelled as `Int`, `f32` weights/embeddings as `ℚ`. -/
structure Memory where
  id : String
  createdAt : Int
  lastAccessed : Int
  accessCount : Nat
  weight : ℚ
  topic : String
  summary : String
  rawExcerpt : Option String
  keywords : List String
  importance : Importance
  source : MemorySource
  relatedIds : List String
  embedding : Option (List ℚ)
deriving DecidableEq, Repr

/-- The external JSON / timestamp encoders used by the store
(`serde_json::to_string`, `serde_json::from_str`, `to_rfc3339`,
`parse_from_rfc3339`), modelled as explicit print/parse functions. -/
structure Codec where
  printStrings : List String → String
  parseStrings : String → Option (List String)
  printTime : Int → String
  parseTime : String → Option Int
  printSource : MemorySource → Option String
  parseSource : String → Option MemorySource
  printLabels : List Label → String
  parseLabels : String → Option (List Label)

/-- `fn source_data` in `store.rs`: `Manual` stores NULL, anything else stores
its JSON rendering. -/
def sourceDataStr (codec : Codec) : MemorySource → Option String
  | .manual => none
  | other => codec.printSource other

/-- `fn parse_source` in `store.rs`: `"manual"` is manual; otherwise parse the
JSON payload, falling back to `Manual` when absent or malformed. -/
def parseSourceCol (codec : Codec) (st : String) (sd : Option String) : MemorySource :=
  if st = "manual" then .manual
  else (sd.bind codec.parseSource).getD .manual

/-- One row of the `memories` table, with the column types declared in
`schema.rs` (`keywords`, `source_data`, `related_ids`, `raw_excerpt` are
nullable TEXT). -/
structure MemRow where
  id : String
  createdAt : String
  lastAccessed : String
  accessCount : Nat
  weight : ℚ
  topic : String
  summary : String
  rawExcerpt : Option String
  keywords : Option String
  importance : String
  sourceType : String
  sourceData : Option String
  relatedIds : Option String
deriving DecidableEq, Repr

/-- `fn row_to_memory` in `store.rs`: malformed JSON arrays become `[]`,
unknown importance becomes `Medium`, unknown source becomes `Manual`,
unparseable timestamps fall back to `Utc::now()` (the `now` argument).  The
`SELECT` column list carries no embedding, so the result's embedding is
`none`. -/
def rowToMemory (codec : Codec) (now : Int) (row : MemRow) : Memory :=
  { id := row.id
    createdAt := (codec.parseTime row.createdAt).getD now
    lastAccessed := (codec.parseTime row.lastAccessed).getD now
    accessCount := row.accessCount
    weight := row.weight
    topic := row.topic
    summary := row.summary
    rawExcerpt := row.rawExcerpt
    keywords := (codec.parseStrings (row.keywords.getD "")).getD []
    importance := (importanceFromStr row.importance).getD .medium
    source := parseSourceCol codec row.sourceType row.sourceData
    relatedIds := (codec.parseStrings (row.relatedIds.getD "")).getD []
    embedding := none }

/-- The column values written by `MemoryStore::store` (the 13-column INSERT in
`store.rs`). -/
def memoryToRow (codec : Codec) (m : Memory) : MemRow :=
  { id := m.id
    createdAt := codec.printTime m.createdAt
    lastAccessed := codec.printTime m.lastAccessed
    accessCount := m.accessCount
    weight := m.weight
    topic := m.topic
    summary := m.summary
    rawExcerpt := m.rawExcerpt
    keywords := some (codec.printStrings m.keywords)
    importance := importanceToString m.importance
    sourceType := sourceTypeStr m.source
    sourceData := sourceDataStr codec m.source
    relatedIds := some (codec.printStrings m.relatedIds) }

/-- One row of the `concepts` table (`labels` and `source_memory_ids` are
NOT NULL TEXT columns). -/
structure ConceptRow where
  id : String
  memoirId : String
  name : String
  definition : String
  labels : String
  confidence : ℚ
  revision : Nat
  createdAt : String
  updatedAt : String
  sourceMemoryIds : String
deriving DecidableEq, Repr

/-- One row of the `concept_links` table. -/
structure LinkRow where
  id : String
  sourceId : String
  targetId : String
  relation : String
  weight : ℚ
  createdAt : String
deriving DecidableEq, Repr

/-- The database state: the three base tables, each as a list of rows in
rowid order. -/
structure Db where
  memories : List MemRow
  concepts : List ConceptRow
  links : List LinkRow
deriving DecidableEq, Repr

/-- Error kinds of `icm-core/src/error.rs` reachable from the modelled
operations. -/
inductive IcmError where
  | notFound (id : String)
  | database (msg : String)
deriving DecidableEq, Repr

/-- Decidable equality for `Except` results, used to evaluate the model on
closed inputs. -/
instance instDecEqExcept {e a : Type} [DecidableEq e] [DecidableEq a] :
    DecidableEq (Except e a)
  | .ok x, .ok y =>
    if h : x = y then .isTrue (by rw [h]) else .isFalse (by intro hc; cases hc; exact h rfl)
  | .ok _, .error _ => .isFalse (by intro hc; cases hc)
  | .error _, .ok _ => .isFalse (by intro hc; cases hc)
  | .error x, .error y =>
    if h : x = y then .isTrue (by rw [h]) else .isFalse (by intro hc; cases hc; exact h rfl)

/-- `MemoryStore::store`: a plain INSERT; fails (UNIQUE constraint on the
primary key) iff a row with the same id exists, otherwise appends the row. -/
def storeMemory (codec : Codec) (m : Memory) (db : Db) : Except IcmError (String × Db) :=
  if db.memories.any (fun r => r.id == m.id) then
    .error (.database "UNIQUE constraint failed: memories.id")
  else
    .ok (m.id, { db with memories := db.memories ++ [memoryToRow codec m] })

/-- `MemoryStore::get`: SELECT by id, converted through `row_to_memory`. -/
def getMemory (codec : Codec) (now : Int) (db : Db) (id : String) : Option Memory :=
  (db.memories.find? (fun r => r.id == id)).map (rowToMemory codec now)

/-- `MemoryStore::update`: the UPDATE sets every column except `id` (the WHERE
key) and `created_at` (absent from the SET list); zero affected rows is
`NotFound`. -/
def updateMemory (codec : Codec) (m : Memory) (db : Db) : Except IcmError Db :=
  if db.memories.any (fun r => r.id == m.id) then
    .ok { db with
          memories := db.memories.map (fun r =>
            if r.id == m.id then
              { r with
                lastAccessed := codec.printTime m.lastAccessed
                accessCount := m.accessCount
                weight := m.weight
                topic := m.topic
                summary := m.summary
                rawExcerpt := m.rawExcerpt
                keywords := some (codec.printStrings m.keywords)
                importance := importanceToString m.importance
                sourceType := sourceTypeStr m.source
                sourceData := sourceDataStr codec m.source
                relatedIds := some (codec.printStrings m.relatedIds) }
            else r) }
  else
    .error (.notFound m.id)

/-- `MemoryStore::apply_decay`: `UPDATE memories SET weight = weight * f WHERE
importance != 'critical'`, returning the number of rows matched. -/
def applyDecay (f : ℚ) (db : Db) : Nat × Db :=
  (db.memories.countP (fun r => !(r.importance == "critical")),
   { db with memories := db.memories.map (fun r =>
       if r.importance == "critical" then r else { r with weight := r.weight * f }) })

/-- `MemoryStore::prune`: `DELETE FROM memories WHERE weight < t AND
importance != 'critical'`, returning the number of rows deleted. -/
def pruneMemories (t : ℚ) (db : Db) : Nat × Db :=
  (db.memories.countP (fun r => decide (r.weight < t) && !(r.importance == "critical")),
   { db with memories := db.memories.filter (fun r =>
       !(decide (r.weight < t) && !(r.importance == "critical"))) })

/-- A finite sequence of lifecycle calls, as in the spec's "any sequence of
`apply_decay`/`prune` calls". -/
inductive LifecycleOp where
  | decay (f : ℚ)
  | prune (t : ℚ)
deriving DecidableEq, Repr

/-- Run one lifecycle call for its state effect. -/
def applyLifecycleOp : LifecycleOp → Db → Db
  | .decay f, db => (applyDecay f db).2
  | .prune t, db => (pruneMemories t db).2

/-- Run a sequence of lifecycle calls. -/
def applyLifecycleOps (ops : List LifecycleOp) (db : Db) : Db :=
  ops.foldl (fun d op => applyLifecycleOp op d) db

/-- The factor/threshold ranges quantified by claim C4. -/
def validLifecycleOp : LifecycleOp → Prop
  | .decay f => 0 < f ∧ f ≤ 1
  | .prune _ => True

/-- `MemoryStore::consolidate_topic` in `store.rs`: a plain DELETE of the
topic's rows (committed on its own, no enclosing transaction), then a call to
`store` whose error is propagated; on that error the deletion has already
taken effect. -/
def consolidateTopic (codec : Codec) (topic : String) (consolidated : Memory) (db : Db) :
    Except IcmError Unit × Db :=
  let db1 := { db with memories := db.memories.filter (fun r => !(r.topic == topic)) }
  match storeMemory codec consolidated db1 with
  | .ok (_, db2) => (.ok (), db2)
  | .error e => (.error e, db1)

/-- A concrete codec used for closed witnesses and counterexamples: it
round-trips on the empty string list, on timestamp `0`, and on the `manual`
source, which is all the concrete inputs below use. -/
def sampleCodec : Codec :=
  { printStrings := fun _ => "[]"
    parseStrings := fun s => if s = "[]" then some [] else none
    printTime := fun _ => "1970-01-01T00:00:00+00:00"
    parseTime := fun s => if s = "1970-01-01T00:00:00+00:00" then some 0 else none
    printSource := fun _ => none
    parseSource := fun _ => none
    printLabels := fun _ => "[]"
    parseLabels := fun s => if s = "[]" then some [] else none }

/-- A fully formed memory whose embedding field is `some` vector. -/
def memWithEmbedding : Memory :=
  { id := "m1", createdAt := 0, lastAccessed := 0, accessCount := 0, weight := 1,
    topic := "t", summary := "s", rawExcerpt := none, keywords := [],
    importance := .medium, source := .manual, relatedIds := [],
    embedding := some [1] }

/-- The store used to exhibit the missing transaction in `consolidate_topic`:
one memory under topic `alpha` and one under topic `beta`. -/
def cDbTwoTopics : Db :=
  { memories :=
      [{ id := "a1", createdAt := "t", lastAccessed := "t", accessCount := 0, weight := 1,
         topic := "alpha", summary := "first", rawExcerpt := none, keywords := some "[]",
         importance := "medium", sourceType := "manual", sourceData := none,
         relatedIds := some "[]" },
       { id := "b1", createdAt := "t", lastAccessed := "t", accessCount := 0, weight := 1,
         topic := "beta", summary := "other", rawExcerpt := none, keywords := some "[]",
         importance := "medium", sourceType := "manual", sourceData := none,
         relatedIds := some "[]" }],
    concepts := [], links := [] }

/-- A replacement memory whose id collides with the `beta` row, so the INSERT
inside `consolidate_topic` fails on the primary-key constraint. -/
def cReplacement : Memory :=
  { id := "b1", createdAt := 0, lastAccessed := 0, accessCount := 0, weight := 1,
    topic := "alpha", summary := "merged", rawExcerpt := none, keywords := [],
    importance := .medium, source := .manual, relatedIds := [], embedding := none }

/-- Relation kinds of `icm-core/src/memoir.rs` (`enum Relation`). -/
inductive Relation where
  | partOf
  | dependsOn
  | relatedTo
  | contradicts
  | refines
  | alternativeTo
  | causedBy
  | instanceOf
  | supersededBy
deriving DecidableEq, Repr

/-- `FromStr for Relation` in `memoir.rs`: lowercases and accepts both the
snake_case and the squashed spelling. -/
def relationFromStr (s : String) : Option Relation :=
  match lowercaseStr s with
  | "part_of" | "partof" => some .partOf
  | "depends_on" | "dependson" => some .dependsOn
  | "related_to" | "relatedto" => some .relatedTo
  | "contradicts" => some .contradicts
  | "refines" => some .refines
  | "alternative_to" | "alternativeto" => some .alternativeTo
  | "caused_by" | "causedby" => some .causedBy
  | "instance_of" | "instanceof" => some .instanceOf
  | "superseded_by" | "supersededby" => some .supersededBy
  | _ => none

/-- The in-program `Concept` value (`struct Concept` in `memoir.rs`). -/
structure Concept where
  id : String
  memoirId : String
  name : String
  definition : String
  labels : List Label
  confidence : ℚ
  revision : Nat
  createdAt : Int
  updatedAt : Int
  sourceMemoryIds : List String
deriving DecidableEq, Repr

/-- The in-program `ConceptLink` value (`struct ConceptLink` in `memoir.rs`). -/
structure ConceptLink where
  id : String
  sourceId : String
  targetId : String
  relation : Relation
  weight : ℚ
  createdAt : Int
deriving DecidableEq, Repr

/-- `fn row_to_concept` in `store.rs`: malformed labels or source-id JSON
becomes `[]`; timestamps fall back to now. -/
def rowToConcept (codec : Codec) (now : Int) (row : ConceptRow) : Concept :=
  { id := row.id
    memoirId := row.memoirId
    name := row.name
    definition := row.definition
    labels := (codec.parseLabels row.labels).getD []
    confidence := row.confidence
    revision := row.revision
    createdAt := (codec.parseTime row.createdAt).getD now
    updatedAt := (codec.parseTime row.updatedAt).getD now
    sourceMemoryIds := (codec.parseStrings row.sourceMemoryIds).getD [] }

/-- `fn row_to_link` in `store.rs`: an unrecognized relation string becomes
`RelatedTo`. -/
def rowToLink (codec : Codec) (now : Int) (row : LinkRow) : ConceptLink :=
  { id := row.id
    sourceId := row.sourceId
    targetId := row.targetId
    relation := (relationFromStr row.relation).getD .relatedTo
    weight := row.weight
    createdAt := (codec.parseTime row.createdAt).getD now }

/-- `MemoirStore::get_concept`: SELECT by id through `row_to_concept`. -/
def getConcept (codec : Codec) (now : Int) (db : Db) (id : String) : Option Concept :=
  (db.concepts.find? (fun r => r.id == id)).map (rowToConcept codec now)

/-- `MemoirStore::refine_concept` in `store.rs`: read the concept (NotFound if
absent), append the new source ids not already present, then UPDATE the row
with the new definition, `revision = revision + 1`,
`confidence = (old + 0.1).min(1.0)`, a fresh `updated_at` and the merged
source list. -/
def refineConcept (codec : Codec) (now : Int) (db : Db) (id : String)
    (newDefinition : String) (newSourceIds : List String) : Except IcmError Db :=
  match getConcept codec now db id with
  | none => .error (.notFound id)
  | some concept =>
    let merged := newSourceIds.foldl
      (fun acc sid => if acc.contains sid then acc else acc ++ [sid])
      concept.sourceMemoryIds
    let newConfidence := min (concept.confidence + 1/10) 1
    .ok { db with concepts := db.concepts.map (fun r =>
      if r.id == id then
        { r with definition := newDefinition
                 revision := r.revision + 1
                 confidence := newConfidence
                 updatedAt := codec.printTime now
                 sourceMemoryIds := codec.printStrings merged }
      else r) }

/-- Stated from the claim's own words, for comparison with the code: the old
source list followed by the new ids not already present, preserving both
orders and dropping duplicates. -/
def unionAppend (old : List String) (newIds : List String) : List String :=
  newIds.foldl (fun acc x => if acc.contains x then acc else acc ++ [x]) old

/-- A codec whose JSON string-list encoder round-trips on `[]` and on
`["m9"]`, enough for a concrete refinement run. -/
def mergeCodec : Codec :=
  { printStrings := fun l => if l = ["m9"] then "[\"m9\"]" else "[]"
    parseStrings := fun s =>
      if s = "[\"m9\"]" then some ["m9"] else if s = "[]" then some [] else none
    printTime := fun _ => "1970-01-01T00:00:00+00:00"
    parseTime := fun _ => none
    printSource := fun _ => none
    parseSource := fun _ => none
    printLabels := fun _ => "[]"
    parseLabels := fun s => if s = "[]" then some [] else none }

/-- A freshly added concept row (revision 1, confidence 0.5, no sources). -/
def freshConceptRow : ConceptRow :=
  { id := "c1", memoirId := "mm", name := "es", definition := "v1", labels := "[]",
    confidence := 1/2, revision := 1, createdAt := "t", updatedAt := "t",
    sourceMemoryIds := "[]" }

/-- A store holding just that concept. -/
def refineDb : Db :=
  { memories := [], concepts := [freshConceptRow], links := [] }

/-- A codec all of whose parsers reject every input, exercising the malformed
branch of every row reader. -/
def rejectAllCodec : Codec :=
  { printStrings := fun _ => "x"
    parseStrings := fun _ => none
    printTime := fun _ => "x"
    parseTime := fun _ => none
    printSource := fun _ => none
    parseSource := fun _ => none
    printLabels := fun _ => "x"
    parseLabels := fun _ => none }

/-- `MemoirStore::get_links_from`: links whose source is the concept,
converted through `row_to_link`. -/
def getLinksFrom (codec : Codec) (now : Int) (db : Db) (conceptId : String) :
    List ConceptLink :=
  (db.links.filter (fun l => l.sourceId == conceptId)).map (rowToLink codec now)

/-- `MemoirStore::get_links_to`: links whose target is the concept. -/
def getLinksTo (codec : Codec) (now : Int) (db : Db) (conceptId : String) :
    List ConceptLink :=
  (db.links.filter (fun l => l.targetId == conceptId)).map (rowToLink codec now)

/-- The mutable state of the breadth-first loop in
`MemoirStore::get_neighborhood`: the pending queue with depths, the visited-id
set (a `HashSet` in the source; only membership matters), and the two output
accumulators. -/
structure BfsState where
  queue : List (String × Nat)
  visited : List String
  concepts : List Concept
  links : List ConceptLink
deriving Repr

/-- One iteration of a `for link in outgoing/incoming` body in
`get_neighborhood`: if the neighbor (`nbId link`) is unvisited and its concept
row exists, mark it visited, enqueue it one level deeper, and record the
concept; the link itself is always recorded. -/
def bfsVisit (codec : Codec) (now : Int) (db : Db) (currentDepth : Nat)
    (nbId : ConceptLink → String) (st : BfsState) (link : ConceptLink) : BfsState :=
  let st1 :=
    if st.visited.contains (nbId link) then st
    else
      match getConcept codec now db (nbId link) with
      | some c =>
        { st with
          visited := c.id :: st.visited
          queue := st.queue ++ [(c.id, currentDepth + 1)]
          concepts := st.concepts ++ [c] }
      | none => st
  { st1 with links := st1.links ++ [link] }

/-- One whole `for` loop over a link list. -/
def bfsExpand (codec : Codec) (now : Int) (db : Db) (currentDepth : Nat)
    (nbId : ConceptLink → String) (st : BfsState) (links : List ConceptLink) : BfsState :=
  links.foldl (bfsVisit codec now db currentDepth nbId) st

/-- The `while let Some((current_id, current_depth)) = queue.pop_front()` loop
of `get_neighborhood`; entries at depth ≥ the bound are popped without
expansion, others are expanded along outgoing then incoming links.  The fuel
argument bounds the iteration count; every queue entry consumes one unit, and
the caller passes more fuel than entries can ever exist. -/
def bfsLoop (codec : Codec) (now : Int) (db : Db) (depth : Nat) :
    Nat → BfsState → List Concept × List ConceptLink
  | 0, st => (st.concepts, st.links)
  | fuel + 1, st =>
    match st.queue with
    | [] => (st.concepts, st.links)
    | (currentId, currentDepth) :: rest =>
      if depth ≤ currentDepth then
        bfsLoop codec now db depth fuel { st with queue := rest }
      else
        let st1 := bfsExpand codec now db currentDepth (fun l => l.targetId)
          { st with queue := rest } (getLinksFrom codec now db currentId)
        let st2 := bfsExpand codec now db currentDepth (fun l => l.sourceId)
          st1 (getLinksTo codec now db currentId)
        bfsLoop codec now db depth fuel st2

/-- `MemoirStore::get_neighborhood`: NotFound when the seed has no row,
otherwise breadth-first expansion seeded with it at depth 0. -/
def getNeighborhood (codec : Codec) (now : Int) (db : Db) (conceptId : String)
    (depth : Nat) : Except IcmError (List Concept × List ConceptLink) :=
  match getConcept codec now db conceptId with
  | none => .error (.notFound conceptId)
  | some root =>
    .ok (bfsLoop codec now db depth (db.concepts.length + 2)
      { queue := [(root.id, 0)], visited := [root.id], concepts := [root], links := [] })

/-- Undirected adjacency in the stored link table. -/
def adjacentB (db : Db) (x y : String) : Bool :=
  db.links.any (fun l =>
    (l.sourceId == x && l.targetId == y) || (l.targetId == x && l.sourceId == y))

/-- `x` is within `n` undirected hops of `root` in the stored link table. -/
def reachWithinB (db : Db) (root : String) : Nat → String → Bool
  | 0, x => x == root
  | n + 1, x =>
    reachWithinB db root n x ||
      db.links.any (fun l =>
        (l.targetId == x && reachWithinB db root n l.sourceId) ||
        (l.sourceId == x && reachWithinB db root n l.targetId))

/-- The invariant carried through the breadth-first loop for claim C3:
queue entries are reachable within their recorded depth (which never exceeds
the bound), recorded concepts are reachable within the bound, no concept id is
recorded twice, and every recorded id is marked visited. -/
def BfsInv (db : Db) (root : String) (depth : Nat) (st : BfsState) : Prop :=
  (∀ e ∈ st.queue, reachWithinB db root e.2 e.1 = true ∧ e.2 ≤ depth) ∧
  (∀ c ∈ st.concepts, reachWithinB db root depth c.id = true) ∧
  (st.concepts.map (fun c => c.id)).Nodup ∧
  (∀ c ∈ st.concepts, c.id ∈ st.visited)

/-- Concept row `a` of the two-node graph used for C3's closed instances. -/
def nbhdConceptA : ConceptRow :=
  { id := "a", memoirId := "m", name := "a", definition := "node a", labels := "[]",
    confidence := 1, revision := 1, createdAt := "t", updatedAt := "t",
    sourceMemoryIds := "[]" }

/-- Concept row `b` of that graph. -/
def nbhdConceptB : ConceptRow :=
  { id := "b", memoirId := "m", name := "b", definition := "node b", labels := "[]",
    confidence := 1, revision := 1, createdAt := "t", updatedAt := "t",
    sourceMemoryIds := "[]" }

/-- The single stored link `a → b`. -/
def nbhdLink : LinkRow :=
  { id := "l1", sourceId := "a", targetId := "b", relation := "depends_on",
    weight := 1, createdAt := "t" }

/-- A store holding concepts `a`, `b` and the one link between them. -/
def nbhdDb : Db :=
  { memories := [], concepts := [nbhdConceptA, nbhdConceptB], links := [nbhdLink] }

/-- SQLite `LIKE` pattern matching over characters, fuelled so that the
recursion is structural: `%` matches any sequence, `_` matches any single
character, and ordinary characters compare ASCII-case-insensitively (SQLite's
default LIKE is case-insensitive).  Every recursive call shrinks
pattern-length + text-length, so fuel `|p| + |t| + 1` never runs out. -/
def likeMatchF : Nat → List Char → List Char → Bool
  | 0, p, t => p.isEmpty && t.isEmpty
  | _ + 1, [], [] => true
  | _ + 1, [], _ :: _ => false
  | fuel + 1, '%' :: ps, t =>
    likeMatchF fuel ps t ||
      (match t with
       | [] => false
       | _ :: ts => likeMatchF fuel ('%' :: ps) ts)
  | fuel + 1, '_' :: ps, t =>
    (match t with
     | [] => false
     | _ :: ts => likeMatchF fuel ps ts)
  | fuel + 1, p :: ps, t =>
    (match t with
     | [] => false
     | c :: ts => (p.toLower == c.toLower) && likeMatchF fuel ps ts)

/-- `LIKE` with adequate fuel. -/
def likeMatch (p t : List Char) : Bool :=
  likeMatchF (p.length + t.length + 1) p t

/-- String form of `LIKE`. -/
def sqlLike (pattern text : String) : Bool :=
  likeMatch pattern.data text.data

/-- `column LIKE pattern` on a nullable column: NULL never matches. -/
def colLike (pattern : String) : Option String → Bool
  | none => false
  | some v => sqlLike pattern v

/-- One `(keywords LIKE ?p OR summary LIKE ?p OR topic LIKE ?p)` disjunct of
`search_by_keywords`, with the parameter bound to `%term%`. -/
def rowMatchesTerm (term : String) (row : MemRow) : Bool :=
  colLike ("%" ++ term ++ "%") row.keywords ||
    sqlLike ("%" ++ term ++ "%") row.summary ||
    sqlLike ("%" ++ term ++ "%") row.topic

/-- The whole WHERE clause: OR across the terms. -/
def rowMatchesAny (terms : List String) (row : MemRow) : Bool :=
  terms.any (fun t => rowMatchesTerm t row)

/-- `MemoryStore::search_by_keywords`: empty term list short-circuits to `[]`;
otherwise the matching rows, ordered by descending weight (a stable sort
refines SQLite's unspecified tie order), limited, and converted. -/
def searchByKeywords (codec : Codec) (now : Int) (terms : List String) (limit : Nat)
    (db : Db) : List Memory :=
  if terms.isEmpty then []
  else
    ((((db.memories.filter (rowMatchesAny terms)).mergeSort
        (fun a b => decide (b.weight ≤ a.weight))).take limit).map
      (rowToMemory codec now))

/-- Plain case-insensitive substring containment (`str::contains` after
lowercasing), used to state the claim's own matching predicate. -/
def listContainsSub (pat : List Char) : List Char → Bool
  | [] => pat.isEmpty
  | c :: rest => pat.isPrefixOf (c :: rest) || listContainsSub pat rest

/-- `needle` occurs as a case-insensitive substring of `hay`. -/
def containsCI (hay needle : String) : Bool :=
  listContainsSub (needle.data.map Char.toLower) (hay.data.map Char.toLower)

/-- Stated from the claim's own words: some term occurs as a case-insensitive
substring of one of the memory's keywords, of its summary, or of its topic. -/
def claimKeywordMatch (terms : List String) (m : Memory) : Bool :=
  terms.any (fun t =>
    m.keywords.any (fun k => containsCI k t) || containsCI m.summary t ||
      containsCI m.topic t)

/-- The one-row store used for C7's closed instances. -/
def likeRow : MemRow :=
  { id := "m1", createdAt := "t", lastAccessed := "t", accessCount := 0, weight := 1,
    topic := "acb", summary := "s", rawExcerpt := none, keywords := some "[]",
    importance := "medium", sourceType := "manual", sourceData := none,
    relatedIds := some "[]" }

/-- That store. -/
def likeDb : Db :=
  { memories := [likeRow], concepts := [], links := [] }

/-- Rust `str::trim`: drop whitespace from both ends. -/
def trimChars (s : String) : String :=
  String.mk (((s.data.dropWhile Char.isWhitespace).reverse.dropWhile
    Char.isWhitespace).reverse)

/-- `serde_json::Value`, as far as the server model needs it. -/
inductive Json where
  | null
  | bool (b : Bool)
  | num (n : ℚ)
  | str (s : String)
  | arr (items : List Json)
  | obj (fields : List (String × Json))

/-- `Value::get` on an object followed by nothing else (`None` off objects). -/
def Json.getField? : Json → String → Option Json
  | .obj fields, k => fields.lookup k
  | _, _ => none

/-- `Value::as_str`. -/
def Json.asStr? : Json → Option String
  | .str s => some s
  | _ => none

/-- `struct JsonRpcMessage` in `icm-mcp/src/protocol.rs`. -/
structure JsonRpcMessage where
  jsonrpc : String
  id : Option Json
  method : Option String
  params : Option Json

/-- `struct JsonRpcError` in `protocol.rs`. -/
structure JsonRpcError where
  code : Int
  message : String

/-- `struct JsonRpcResponse` in `protocol.rs`. -/
structure JsonRpcResponse where
  jsonrpc : String
  id : Json
  result : Option Json
  error : Option JsonRpcError

/-- `JsonRpcResponse::ok`. -/
def rpcOk (id : Json) (result : Json) : JsonRpcResponse :=
  { jsonrpc := "2.0", id := id, result := some result, error := none }

/-- `JsonRpcResponse::err`. -/
def rpcErr (id : Json) (code : Int) (message : String) : JsonRpcResponse :=
  { jsonrpc := "2.0", id := id, result := none,
    error := some { code := code, message := message } }

/-- `JsonRpcResponse::method_not_found`. -/
def methodNotFound (id : Json) (method : String) : JsonRpcResponse :=
  rpcErr id (-32601) ("method not found: " ++ method)

/-- The parts of the server the dispatch skeleton treats as black boxes: the
build-time version string, `tools::tool_definitions`, and `tools::call_tool`
composed with `serde_json::to_value` (966-line `tools.rs`, irrelevant to the
line protocol). -/
structure ServerDeps where
  serverVersion : String
  toolDefs : Bool → Json
  callTool : String → Json → Json
  hasEmbedder : Bool

/-- `ICM_INSTRUCTIONS` in `icm-mcp/src/server.rs`. -/
def icmInstructions : String :=
  "Use ICM (Infinite Context Memory) proactively to maintain long-term memory across sessions.\n\nRECALL (icm_recall): At the start of a task, search for relevant past context — decisions, resolved errors, user preferences. Search only what is relevant, do not dump everything.\n\nSTORE (icm_store): Automatically store important information:\n- Architecture decisions → topic: \"decisions-{project}\"\n- Resolved errors with solutions → topic: \"errors-resolved\"\n- User preferences discovered in session → topic: \"preferences\"\n- Project context after significant work → topic: \"context-{project}\"\n\nDo NOT store: trivial details, information already in CLAUDE.md, ephemeral state.\n\nImportance levels: critical (never forgotten), high (slow decay), medium (normal), low (fast decay)."

/-- `fn handle_initialize` in `server.rs`. -/
def handleInitializeResp (deps : ServerDeps) (id : Json) : JsonRpcResponse :=
  rpcOk id (.obj
    [("protocolVersion", .str "2024-11-05"),
     ("capabilities", .obj [("tools", .obj [])]),
     ("serverInfo", .obj [("name", .str "icm"), ("version", .str deps.serverVersion)]),
     ("instructions", .str icmInstructions)])

/-- `fn handle_tools_list` in `server.rs`. -/
def handleToolsList (deps : ServerDeps) (id : Json) : JsonRpcResponse :=
  rpcOk id (deps.toolDefs deps.hasEmbedder)

/-- `fn handle_tools_call` in `server.rs`: missing params or tool name are
`-32602`; otherwise the tool result envelope is returned as a success. -/
def handleToolsCall (deps : ServerDeps) (id : Json) (params : Option Json) :
    JsonRpcResponse :=
  match params with
  | none => rpcErr id (-32602) "missing params"
  | some p =>
    match (p.getField? "name").bind Json.asStr? with
    | none => rpcErr id (-32602) "missing tool name"
    | some toolName =>
      let args := (p.getField? "arguments").getD (.obj [])
      rpcOk id (deps.callTool toolName args)

/-- One iteration of the `for line in stdin` loop of `run_server`: trim the
line; skip blank lines silently; an unparseable line is answered with
`-32700`/id null; a parsed notification (no id) is consumed silently;
otherwise dispatch on the method name, unknown methods answering `-32601`
with the request's id.  The `parse` argument is `serde_json::from_str`
for `JsonRpcMessage`. -/
def processLine (deps : ServerDeps)
    (parse : String → Except String JsonRpcMessage) (line : String) :
    Option JsonRpcResponse :=
  let l := trimChars line
  if l.isEmpty then none
  else
    match parse l with
    | .error e => some (rpcErr .null (-32700) ("parse error: " ++ e))
    | .ok msg =>
      let method := msg.method.getD ""
      match msg.id with
      | none => none
      | some id =>
        some (
          if method = "initialize" then handleInitializeResp deps id
          else if method = "ping" then rpcOk id (.obj [])
          else if method = "tools/list" then handleToolsList deps id
          else if method = "tools/call" then handleToolsCall deps id msg.params
          else methodNotFound id method)

/-- Deps whose black boxes are trivial, for closed instances. -/
def trivialDeps : ServerDeps :=
  { serverVersion := "0", toolDefs := fun _ => .null,
    callTool := fun _ _ => .null, hasEmbedder := false }

/-- A parser that rejects every line, as `serde_json::from_str` does on the
empty string. -/
def failParse : String → Except String JsonRpcMessage :=
  fun _ => .error "EOF while parsing a value at line 1 column 0"

/-- Byte length of a string (Rust `str::len`). -/
def byteLen (s : String) : Nat :=
  (s.data.map (fun c =>
    if c.val.toNat < 128 then 1
    else if c.val.toNat < 2048 then 2
    else if c.val.toNat < 65536 then 3
    else 4)).sum

/-- `kw` occurs as a substring of `hay` (Rust `str::contains`). -/
def strContains (hay kw : String) : Bool :=
  listContainsSub kw.data hay.data

/-- Rust `str::split_whitespace`: maximal non-whitespace runs. -/
def splitWsAux : List Char → List Char → List String
  | [], current => if current.isEmpty then [] else [String.mk current.reverse]
  | c :: rest, current =>
    if c.isWhitespace then
      if current.isEmpty then splitWsAux rest []
      else String.mk current.reverse :: splitWsAux rest []
    else splitWsAux rest (c :: current)

/-- String form of `split_whitespace`. -/
def splitWhitespace (s : String) : List String :=
  splitWsAux s.data []

/-- `fn split_sentences` in `icm-cli/src/extract.rs`: cut after `.` or
newline, keep trimmed segments longer than 15 bytes, flush the tail. -/
def splitSentencesAux : List Char → List Char → List String
  | [], current =>
    let t := trimChars (String.mk current.reverse)
    if byteLen t > 15 then [t] else []
  | ch :: rest, current =>
    if ch = '.' ∨ ch = '\n' then
      let t := trimChars (String.mk (ch :: current).reverse)
      if byteLen t > 15 then t :: splitSentencesAux rest []
      else splitSentencesAux rest []
    else splitSentencesAux rest (ch :: current)

/-- String form of `split_sentences`. -/
def splitSentences (text : String) : List String :=
  splitSentencesAux text.data []

/-- The six keyword groups of `extract_facts`, in source order. -/
def specKeywords : List String :=
  ["maximum", "minimum", "default", "requires", "supports", "timeout",
   "threshold", "configured", "limited by", "port", "nodes", "cluster",
   "protocol", "phase"]

/-- Architecture / design keywords (group weight 2.0). -/
def archKeywords : List String :=
  ["architecture", "module", "pipeline", "component", "design", "structure",
   "layer", "implementation", "deployed", "system", "framework", "model"]

/-- Algorithm / technical-depth keywords (group weight 3.0, importance High). -/
def depthKeywords : List String :=
  ["algorithm", "implements", "complexity", "o(n", "recursive", "tolerance",
   "consensus", "replication", "latency", "throughput", "bandwidth", "fault"]

/-- Decision / rationale keywords (group weight 2.5, importance High). -/
def decisionKeywords : List String :=
  ["chose", "chosen", "decided", "because", "instead of", "trade-off",
   "rather than", "reason", "motivated", "proposed", "introduced", "invented"]

/-- Performance keywords (group weight 2.0). -/
def perfKeywords : List String :=
  ["benchmark", "performance", "measured", "achieves", "tps", "latency",
   "availability", "scales"]

/-- Named-entity keywords (group weight 1.0). -/
def entityKeywords : List String :=
  ["licensed", "published", "paper", "team", "professor", "university",
   "company", "stanford", "mit"]

/-- The per-sentence score and importance of `extract_facts`, translated
statement by statement (scores are exact rationals; every constant is a
multiple of 0.5, so `f32` addition is exact here too). -/
def scoreSentence (s : String) : ℚ × Importance :=
  let lower := lowercaseStr s
  let score1 : ℚ := if s.data.any Char.isDigit then 0 + 3/2 else 0
  let words := splitWhitespace s
  let properNouns := ((words.drop 1).filter (fun w =>
    decide (byteLen w > 1) &&
      (match w.data with
       | [] => false
       | c :: _ => c.isUpper) &&
      !(w.data.all Char.isUpper))).length
  let score2 := if properNouns ≥ 2 then score1 + 3/2 else score1
  let score3 := specKeywords.foldl
    (fun sc kw => if strContains lower kw then sc + 3/2 else sc) score2
  let score4 := archKeywords.foldl
    (fun sc kw => if strContains lower kw then sc + 2 else sc) score3
  let score5 := depthKeywords.foldl
    (fun sc kw => if strContains lower kw then sc + 3 else sc) score4
  let imp1 := if depthKeywords.any (fun kw => strContains lower kw) then
    Importance.high else Importance.medium
  let score6 := decisionKeywords.foldl
    (fun sc kw => if strContains lower kw then sc + 5/2 else sc) score5
  let imp2 := if decisionKeywords.any (fun kw => strContains lower kw) then
    Importance.high else imp1
  let score7 := perfKeywords.foldl
    (fun sc kw => if strContains lower kw then sc + 2 else sc) score6
  let score8 := entityKeywords.foldl
    (fun sc kw => if strContains lower kw then sc + 1 else sc) score7
  let score9 := if strContains lower ".rs" || strContains lower "fn " ||
      strContains lower "struct " then score8 + 1 else score8
  (score9, imp2)

/-- `fn jaccard_similar` in `extract.rs`: token-set Jaccard similarity
strictly above 0.6 (an empty union counts as similar). -/
def jaccardSimilar (a b : String) : Bool :=
  let aw := (splitWhitespace a).dedup
  let bw := (splitWhitespace b).dedup
  let inter := (aw.filter (fun w => bw.contains w)).length
  let uni := (aw ++ bw.filter (fun w => !aw.contains w)).length
  if uni = 0 then true
  else decide ((inter : ℚ) / (uni : ℚ) > 3/5)

/-- The greedy near-duplicate suppression step of `extract_facts`: skip the
candidate when it is similar to any already-kept fact, otherwise keep it
tagged with the project topic. -/
def dedupStep (project : String) (facts : List (String × String × Importance))
    (entry : ℚ × String × Importance) : List (String × String × Importance) :=
  if facts.any (fun f => jaccardSimilar f.2.1 entry.2.1) then facts
  else facts ++ [("context-" ++ project, entry.2.1, entry.2.2)]

/-- `fn extract_facts` in `extract.rs`: split into sentences, keep those of
trimmed byte length in [20, 500] scoring at least 3.0, stable-sort by
descending score, truncate to 30, greedily suppress near-duplicates, emit the
first 20 tagged `context-{project}`. -/
def extractFacts (text : String) (project : String) :
    List (String × String × Importance) :=
  let sentences := splitSentences text
  let scored := sentences.foldl (fun acc sentence =>
    let s := trimChars sentence
    if byteLen s < 20 || byteLen s > 500 then acc
    else
      let sc := scoreSentence s
      if sc.1 ≥ 3 then acc ++ [(sc.1, s, sc.2)] else acc) []
  let sortedScored := (scored.mergeSort (fun a b => decide (b.1 ≤ a.1))).take 30
  let facts := sortedScored.foldl (dedupStep project) []
  facts.take 20

theorem critical_row_fixed_decay (f : ℚ) (db : Db) (row : MemRow)
    (hmem : row ∈ db.memories) (hcrit : row.importance = "critical") :
    row ∈ ((applyDecay f db).2).memories := by
  simp only [applyDecay]
  have : (fun r : MemRow =>
      if r.importance == "critical" then r else { r with weight := r.weight * f }) row = row := by
    simp [hcrit]
  exact this ▸ List.mem_map_of_mem _ hmem

theorem critical_row_fixed_prune (t : ℚ) (db : Db) (row : MemRow)
    (hmem : row ∈ db.memories) (hcrit : row.importance = "critical") :
    row ∈ ((pruneMemories t db).2).memories := by
  simp only [pruneMemories]
  refine List.mem_filter.mpr ⟨hmem, ?_⟩
  simp [hcrit]

theorem critical_row_fixed_ops (ops : List LifecycleOp) (db : Db) (row : MemRow)
    (hmem : row ∈ db.memories) (hcrit : row.importance = "critical") :
    row ∈ (applyLifecycleOps ops db).memories := by
  induction ops generalizing db with
  | nil => exact hmem
  | cons op rest ih =>
    cases op with
    | decay f =>
      exact ih _ (critical_row_fixed_decay f db row hmem hcrit)
    | prune t =>
      exact ih _ (critical_row_fixed_prune t db row hmem hcrit)

/-- C4: a memory row whose importance column is `critical` survives every
finite sequence of `apply_decay`/`prune` calls with the very same row value
(in particular its weight is unchanged); `apply_decay` leaves critical rows
untouched, multiplies every non-critical row's weight by the factor, and
returns the number of non-critical rows; `prune` keeps exactly the rows that
are critical or of weight at least the threshold, and returns the number of
rows it removed. -/
theorem consolidated_decay_prune_critical_exempt
    (db : Db) (ops : List LifecycleOp) (row : MemRow)
    (hv : ∀ op ∈ ops, validLifecycleOp op)
    (hmem : row ∈ db.memories) (hcrit : row.importance = "critical") :
    row ∈ (applyLifecycleOps ops db).memories ∧
    (∀ f : ℚ, ∀ r ∈ db.memories,
      (r.importance = "critical" → r ∈ ((applyDecay f db).2).memories) ∧
      (r.importance ≠ "critical" →
        { r with weight := r.weight * f } ∈ ((applyDecay f db).2).memories)) ∧
    (∀ f : ℚ, (applyDecay f db).1 =
      (db.memories.filter (fun r => !(r.importance == "critical"))).length) ∧
    (∀ t : ℚ, ∀ r : MemRow,
      (r ∈ ((pruneMemories t db).2).memories ↔
        r ∈ db.memories ∧ ¬(r.weight < t ∧ r.importance ≠ "critical"))) ∧
    (∀ t : ℚ, (pruneMemories t db).1 =
      (db.memories.filter
        (fun r => decide (r.weight < t) && !(r.importance == "critical"))).length) := by
  refine ⟨critical_row_fixed_ops ops db row hmem hcrit, ?_, ?_, ?_, ?_⟩
  · intro f r hr
    constructor
    · intro hc
      exact critical_row_fixed_decay f db r hr hc
    · intro hnc
      simp only [applyDecay]
      have : (fun s : MemRow =>
          if s.importance == "critical" then s else { s with weight := s.weight * f }) r
          = { r with weight := r.weight * f } := by
        simp [hnc]
      exact this ▸ List.mem_map_of_mem _ hr
  · intro f
    simp [applyDecay, List.countP_eq_length_filter]
  · intro t r
    simp only [pruneMemories, List.mem_filter]
    constructor
    · rintro ⟨h1, h2⟩
      refine ⟨h1, ?_⟩
      intro ⟨hw, hc⟩
      simp [hw, hc] at h2
    · rintro ⟨h1, h2⟩
      refine ⟨h1, ?_⟩
      by_cases hw : r.weight < t
      · have hc : r.importance = "critical" := by
          by_contra hc
          exact h2 ⟨hw, hc⟩
        simp [hc]
      · simp [hw]
  · intro t
    simp [pruneMemories, List.countP_eq_length_filter]

/-- Witness for C4 at a concrete store: one critical row of weight 1 survives
a decay by 1/2 followed by a prune at threshold 3/4. -/
theorem consolidated_decay_prune_critical_exempt_witness :
    (∀ op ∈ [LifecycleOp.decay (1/2), LifecycleOp.prune (3/4)], validLifecycleOp op) ∧
    ({ id := "m1", createdAt := "t0", lastAccessed := "t0", accessCount := 0,
       weight := 1, topic := "a", summary := "s", rawExcerpt := none,
       keywords := some "[]", importance := "critical", sourceType := "manual",
       sourceData := none, relatedIds := some "[]" } : MemRow) ∈
      (applyLifecycleOps [LifecycleOp.decay (1/2), LifecycleOp.prune (3/4)]
        { memories := [{ id := "m1", createdAt := "t0", lastAccessed := "t0",
                         accessCount := 0, weight := 1, topic := "a", summary := "s",
                         rawExcerpt := none, keywords := some "[]",
                         importance := "critical", sourceType := "manual",
                         sourceData := none, relatedIds := some "[]" }],
          concepts := [], links := [] }).memories := by
  constructor
  · intro op hop
    simp only [List.mem_cons, List.mem_singleton] at hop
    rcases hop with h | h | h
    · subst h; exact ⟨by norm_num, by norm_num⟩
    · subst h; trivial
    · cases h
  · exact (consolidated_decay_prune_critical_exempt
      { memories := [{ id := "m1", createdAt := "t0", lastAccessed := "t0",
                       accessCount := 0, weight := 1, topic := "a", summary := "s",
                       rawExcerpt := none, keywords := some "[]",
                       importance := "critical", sourceType := "manual",
                       sourceData := none, relatedIds := some "[]" }],
        concepts := [], links := [] }
      [LifecycleOp.decay (1/2), LifecycleOp.prune (3/4)]
      { id := "m1", createdAt := "t0", lastAccessed := "t0", accessCount := 0,
        weight := 1, topic := "a", summary := "s", rawExcerpt := none,
        keywords := some "[]", importance := "critical", sourceType := "manual",
        sourceData := none, relatedIds := some "[]" }
      (by
        intro op hop
        simp only [List.mem_cons, List.mem_singleton] at hop
        rcases hop with h | h | h
        · subst h; exact ⟨by norm_num, by norm_num⟩
        · subst h; trivial
        · cases h)
      (by simp) rfl).1

theorem importance_to_from_string (i : Importance) :
    importanceFromStr (importanceToString i) = some i := by
  cases i <;> decide

theorem find?_map_of_pred_comm {α : Type} (f : α → α) (p : α → Bool) (l : List α)
    (hf : ∀ a, p (f a) = p a) :
    (l.map f).find? p = (l.find? p).map f := by
  induction l with
  | nil => rfl
  | cons a rest ih =>
    by_cases h : p a = true
    · rw [List.map_cons, List.find?_cons_of_pos _ (by rw [hf]; exact h),
        List.find?_cons_of_pos _ h, Option.map_some']
    · rw [List.map_cons, List.find?_cons_of_neg _ (by rw [hf]; simpa using h),
        List.find?_cons_of_neg _ (by simpa using h), ih]

/-- C2 (amended): storing a fully formed memory whose id is fresh and reading
it back returns a memory equal to the original in every field except the
embedding, which comes back `none` (the INSERT writes no embedding column and
the SELECT reads none); access metadata is not touched by this pair of calls.
The hypotheses state that the JSON/timestamp codec round-trips on the values
of this memory. -/
theorem store_then_get_roundtrip_except_embedding
    (codec : Codec) (db : Db) (m : Memory) (now : Int)
    (hfresh : ∀ r ∈ db.memories, r.id ≠ m.id)
    (hkw : codec.parseStrings (codec.printStrings m.keywords) = some m.keywords)
    (hrel : codec.parseStrings (codec.printStrings m.relatedIds) = some m.relatedIds)
    (hct : codec.parseTime (codec.printTime m.createdAt) = some m.createdAt)
    (hla : codec.parseTime (codec.printTime m.lastAccessed) = some m.lastAccessed)
    (hsrc : parseSourceCol codec (sourceTypeStr m.source) (sourceDataStr codec m.source)
      = m.source) :
    ∃ db', storeMemory codec m db = .ok (m.id, db') ∧
      getMemory codec now db' m.id = some { m with embedding := none } := by
  have hany : db.memories.any (fun r => r.id == m.id) = false := by
    rw [List.any_eq_false]
    intro r hr
    simpa using hfresh r hr
  refine ⟨{ db with memories := db.memories ++ [memoryToRow codec m] }, ?_, ?_⟩
  · simp [storeMemory, hany]
  · have hnone : db.memories.find? (fun r => r.id == m.id) = none := by
      rw [List.find?_eq_none]
      intro r hr
      simpa using hfresh r hr
    have hrow : (memoryToRow codec m).id = m.id := rfl
    simp only [getMemory, List.find?_append, hnone, Option.none_or]
    rw [List.find?_cons_of_pos _ (by simp [hrow])]
    simp only [Option.map_some', Option.some_inj]
    simp only [rowToMemory, memoryToRow, Option.getD_some, hkw, hrel, hct, hla, hsrc,
      importance_to_from_string]

/-- C2 counterexample: storing a memory whose embedding is `some [1]` into an
empty store and reading it back yields a memory whose embedding is `none`, so
the retrieved value differs from the stored one in a field that is not access
metadata; the claim as stated is false. -/
theorem store_then_get_drops_embedding :
    (storeMemory sampleCodec memWithEmbedding
        { memories := [], concepts := [], links := [] }).toOption.bind
      (fun p => getMemory sampleCodec 0 p.2 memWithEmbedding.id)
      = some { memWithEmbedding with embedding := none } ∧
    ({ memWithEmbedding with embedding := none } : Memory) ≠ memWithEmbedding := by
  constructor
  · decide
  · decide

/-- Witness for C2's amended theorem at the same concrete memory (with its
embedding present) and codec. -/
theorem store_then_get_roundtrip_except_embedding_witness :
    ∃ db', storeMemory sampleCodec memWithEmbedding
        { memories := [], concepts := [], links := [] } = .ok (memWithEmbedding.id, db') ∧
      getMemory sampleCodec 0 db' memWithEmbedding.id
        = some { memWithEmbedding with embedding := none } :=
  store_then_get_roundtrip_except_embedding sampleCodec
    { memories := [], concepts := [], links := [] } memWithEmbedding 0
    (by intro r hr; cases hr) (by decide) (by decide) (by decide) (by decide) (by decide)

/-- C10: when a row with the argument's id exists, `update` succeeds and the
stored row keeps its original `id` and `created_at` (the UPDATE's SET list
contains neither), while every other column is overwritten from the caller's
memory, whatever values the caller supplied for id and creation time. -/
theorem update_preserves_id_and_created_at
    (codec : Codec) (m : Memory) (db : Db) (row : MemRow)
    (hfind : db.memories.find? (fun r => r.id == m.id) = some row) :
    ∃ db', updateMemory codec m db = .ok db' ∧
      ∃ row', db'.memories.find? (fun r => r.id == m.id) = some row' ∧
        row'.id = row.id ∧
        row'.createdAt = row.createdAt ∧
        row'.topic = m.topic ∧
        row'.summary = m.summary ∧
        row'.weight = m.weight ∧
        row'.accessCount = m.accessCount ∧
        row'.lastAccessed = codec.printTime m.lastAccessed ∧
        row'.rawExcerpt = m.rawExcerpt ∧
        row'.keywords = some (codec.printStrings m.keywords) ∧
        row'.importance = importanceToString m.importance ∧
        row'.sourceType = sourceTypeStr m.source ∧
        row'.sourceData = sourceDataStr codec m.source ∧
        row'.relatedIds = some (codec.printStrings m.relatedIds) := by
  have hmem := List.mem_of_find?_eq_some hfind
  have hp := List.find?_some hfind
  have hany : db.memories.any (fun r => r.id == m.id) = true := by
    rw [List.any_eq_true]
    exact ⟨row, hmem, hp⟩
  simp only [updateMemory, hany, if_true]
  refine ⟨_, rfl, ?_⟩
  rw [find?_map_of_pred_comm _ _ _ (fun a => by by_cases h : a.id == m.id <;> simp [h]),
    hfind, Option.map_some']
  refine ⟨_, rfl, ?_⟩
  simp [hp]

/-- Witness for C10 at a one-row store whose caller supplies a different
creation time: the stored row keeps the old one. -/
theorem update_preserves_id_and_created_at_witness :
    ∃ db', updateMemory sampleCodec
        { id := "m1", createdAt := 99, lastAccessed := 0, accessCount := 7, weight := 2,
          topic := "t2", summary := "s2", rawExcerpt := none, keywords := [],
          importance := .low, source := .manual, relatedIds := [], embedding := none }
        { memories := [{ id := "m1", createdAt := "1970-01-01T00:00:00+00:00",
                         lastAccessed := "1970-01-01T00:00:00+00:00", accessCount := 0,
                         weight := 1, topic := "t", summary := "s", rawExcerpt := none,
                         keywords := some "[]", importance := "medium",
                         sourceType := "manual", sourceData := none,
                         relatedIds := some "[]" }],
          concepts := [], links := [] } = .ok db' ∧
      ∃ row', db'.memories.find? (fun r => r.id == "m1") = some row' ∧
        row'.id = "m1" ∧
        row'.createdAt = "1970-01-01T00:00:00+00:00" ∧
        row'.topic = "t2" ∧
        row'.summary = "s2" ∧
        row'.weight = 2 ∧
        row'.accessCount = 7 ∧
        row'.lastAccessed = sampleCodec.printTime 0 ∧
        row'.rawExcerpt = none ∧
        row'.keywords = some (sampleCodec.printStrings []) ∧
        row'.importance = importanceToString .low ∧
        row'.sourceType = sourceTypeStr .manual ∧
        row'.sourceData = sourceDataStr sampleCodec .manual ∧
        row'.relatedIds = some (sampleCodec.printStrings []) :=
  update_preserves_id_and_created_at sampleCodec
    { id := "m1", createdAt := 99, lastAccessed := 0, accessCount := 7, weight := 2,
      topic := "t2", summary := "s2", rawExcerpt := none, keywords := [],
      importance := .low, source := .manual, relatedIds := [], embedding := none }
    { memories := [{ id := "m1", createdAt := "1970-01-01T00:00:00+00:00",
                     lastAccessed := "1970-01-01T00:00:00+00:00", accessCount := 0,
                     weight := 1, topic := "t", summary := "s", rawExcerpt := none,
                     keywords := some "[]", importance := "medium",
                     sourceType := "manual", sourceData := none,
                     relatedIds := some "[]" }],
      concepts := [], links := [] }
    { id := "m1", createdAt := "1970-01-01T00:00:00+00:00",
      lastAccessed := "1970-01-01T00:00:00+00:00", accessCount := 0,
      weight := 1, topic := "t", summary := "s", rawExcerpt := none,
      keywords := some "[]", importance := "medium", sourceType := "manual",
      sourceData := none, relatedIds := some "[]" }
    (by decide)

/-- C1 evaluated at the failing input: the topic `alpha` holds one memory, the
replacement's insertion fails, and afterwards the store holds no `alpha` row at
all — the delete was not rolled back, because `consolidate_topic` runs the
DELETE and the INSERT as two separate auto-committed statements instead of one
transaction. -/
theorem consolidate_topic_failed_insert_loses_rows :
    (cDbTwoTopics.memories.filter (fun r => r.topic == "alpha")).length = 1 ∧
    (consolidateTopic sampleCodec "alpha" cReplacement cDbTwoTopics).1
      = .error (.database "UNIQUE constraint failed: memories.id") ∧
    (consolidateTopic sampleCodec "alpha" cReplacement cDbTwoTopics).2.memories.filter
      (fun r => r.topic == "alpha") = [] := by
  refine ⟨?_, ?_, ?_⟩ <;> decide

/-- C5: refining an existing concept sets its definition to the new text,
increments its revision, sets its confidence to `min(1.0, old + 0.1)` and its
source list to the order-preserving duplicate-dropping union-append of the old
and new ids; refining an absent id fails with NotFound.  The codec hypothesis
states that the JSON encoder round-trips on the merged source list. -/
theorem refine_concept_updates_fields
    (codec : Codec) (now now2 : Int) (db : Db) (id newDef : String)
    (s' : List String) (c0 : Concept)
    (hget : getConcept codec now db id = some c0)
    (hsrcs : codec.parseStrings (codec.printStrings (unionAppend c0.sourceMemoryIds s'))
      = some (unionAppend c0.sourceMemoryIds s')) :
    (∃ db', refineConcept codec now db id newDef s' = .ok db' ∧
      ∃ c1, getConcept codec now2 db' id = some c1 ∧
        c1.definition = newDef ∧
        c1.revision = c0.revision + 1 ∧
        c1.confidence = min 1 (c0.confidence + 1/10) ∧
        c1.sourceMemoryIds = unionAppend c0.sourceMemoryIds s') ∧
    (∀ db2 : Db, getConcept codec now db2 id = none →
      refineConcept codec now db2 id newDef s' = .error (.notFound id)) := by
  constructor
  · obtain ⟨row, hfind, hconv⟩ := Option.map_eq_some'.mp hget
    have hrev : c0.revision = row.revision := by rw [← hconv]; rfl
    have hconf : c0.confidence = row.confidence := by rw [← hconv]; rfl
    have hsm : c0.sourceMemoryIds = (codec.parseStrings row.sourceMemoryIds).getD [] := by
      rw [← hconv]; rfl
    refine ⟨_, by rw [refineConcept, hget], ?_⟩
    have hpres : ∀ a : ConceptRow,
        ((fun r : ConceptRow => r.id == id)
          (if a.id == id then
            { a with definition := newDef
                     revision := a.revision + 1
                     confidence := min (c0.confidence + 1/10) 1
                     updatedAt := codec.printTime now
                     sourceMemoryIds :=
                       codec.printStrings (unionAppend c0.sourceMemoryIds s') }
           else a))
          = (fun r : ConceptRow => r.id == id) a := by
      intro a
      by_cases h : a.id == id <;> simp [h]
    simp only [getConcept, refineConcept, hget, unionAppend]
    rw [find?_map_of_pred_comm _ _ _ (fun a => by by_cases h : a.id == id <;> simp [h]),
      hfind, Option.map_some']
    have hp := List.find?_some hfind
    refine ⟨_, rfl, ?_, ?_, ?_, ?_⟩
    · simp [hp, rowToConcept]
    · simp [hp, rowToConcept, hrev]
    · simp [hp, rowToConcept, min_comm]
    · simp only [hp, if_true, rowToConcept]
      simpa [unionAppend] using congrArg (fun o => o.getD ([] : List String)) hsrcs
  · intro db2 hnone
    rw [refineConcept, hnone]

/-- Witness for C5 at a concrete store: refining the fresh concept with
definition `v2` and new source `m9` yields revision 2, confidence
`min 1 (0.5 + 0.1)` and source list `[m9]`, and refining an absent id is
NotFound. -/
theorem refine_concept_updates_fields_witness :
    (∃ db', refineConcept mergeCodec 0 refineDb "c1" "v2" ["m9"] = .ok db' ∧
      ∃ c1, getConcept mergeCodec 0 db' "c1" = some c1 ∧
        c1.definition = "v2" ∧
        c1.revision = (rowToConcept mergeCodec 0 freshConceptRow).revision + 1 ∧
        c1.confidence
          = min 1 ((rowToConcept mergeCodec 0 freshConceptRow).confidence + 1/10) ∧
        c1.sourceMemoryIds
          = unionAppend (rowToConcept mergeCodec 0 freshConceptRow).sourceMemoryIds
              ["m9"]) ∧
    (∀ db2 : Db, getConcept mergeCodec 0 db2 "c1" = none →
      refineConcept mergeCodec 0 db2 "c1" "v2" ["m9"] = .error (.notFound "c1")) :=
  refine_concept_updates_fields mergeCodec 0 0 refineDb "c1" "v2" ["m9"]
    (rowToConcept mergeCodec 0 freshConceptRow)
    (by simp [getConcept, refineDb, freshConceptRow, List.find?])
    (by simp [rowToConcept, freshConceptRow, mergeCodec, unionAppend])

/-- C9: the three row readers are total — they succeed on every row — and on
absent or malformed JSON columns or unrecognized enum strings they substitute
the defaults: empty keyword/related/label/source lists, `Medium` importance,
`Manual` source, `RelatedTo` relation. -/
theorem row_readers_substitute_defaults (codec : Codec) (now : Int) :
    (∀ row : MemRow,
      (codec.parseStrings (row.keywords.getD "") = none →
        (rowToMemory codec now row).keywords = []) ∧
      (codec.parseStrings (row.relatedIds.getD "") = none →
        (rowToMemory codec now row).relatedIds = []) ∧
      (importanceFromStr row.importance = none →
        (rowToMemory codec now row).importance = .medium) ∧
      (row.sourceType ≠ "manual" → row.sourceData.bind codec.parseSource = none →
        (rowToMemory codec now row).source = .manual)) ∧
    (∀ row : ConceptRow,
      (codec.parseLabels row.labels = none →
        (rowToConcept codec now row).labels = []) ∧
      (codec.parseStrings row.sourceMemoryIds = none →
        (rowToConcept codec now row).sourceMemoryIds = [])) ∧
    (∀ row : LinkRow, relationFromStr row.relation = none →
      (rowToLink codec now row).relation = .relatedTo) := by
  refine ⟨fun row => ⟨?_, ?_, ?_, ?_⟩, fun row => ⟨?_, ?_⟩, fun row => ?_⟩
  · intro h; simp [rowToMemory, h]
  · intro h; simp [rowToMemory, h]
  · intro h; simp [rowToMemory, h]
  · intro h1 h2; simp [rowToMemory, parseSourceCol, h1, h2]
  · intro h; simp [rowToConcept, h]
  · intro h; simp [rowToConcept, h]
  · intro h; simp [rowToLink, h]

/-- Witness for C9 on concrete malformed rows under the rejecting codec: a
memory row with importance `urgent`, a non-manual source type and garbage JSON
reads back with empty lists, Medium and Manual; a link row with relation
`friend_of` reads back as RelatedTo. -/
theorem row_readers_substitute_defaults_witness :
    (rowToMemory rejectAllCodec 0
      { id := "m", createdAt := "bad", lastAccessed := "bad", accessCount := 0,
        weight := 1, topic := "t", summary := "s", rawExcerpt := none,
        keywords := some "\x7boops", importance := "urgent", sourceType := "claude_code",
        sourceData := some "\x7boops", relatedIds := none }).keywords = [] ∧
    (rowToMemory rejectAllCodec 0
      { id := "m", createdAt := "bad", lastAccessed := "bad", accessCount := 0,
        weight := 1, topic := "t", summary := "s", rawExcerpt := none,
        keywords := some "\x7boops", importance := "urgent", sourceType := "claude_code",
        sourceData := some "\x7boops", relatedIds := none }).importance = .medium ∧
    (rowToMemory rejectAllCodec 0
      { id := "m", createdAt := "bad", lastAccessed := "bad", accessCount := 0,
        weight := 1, topic := "t", summary := "s", rawExcerpt := none,
        keywords := some "\x7boops", importance := "urgent", sourceType := "claude_code",
        sourceData := some "\x7boops", relatedIds := none }).source = .manual ∧
    (rowToConcept rejectAllCodec 0 freshConceptRow).labels = [] ∧
    (rowToLink rejectAllCodec 0
      { id := "l", sourceId := "a", targetId := "b", relation := "friend_of",
        weight := 1, createdAt := "t" }).relation = .relatedTo := by
  refine ⟨?_, ?_, ?_, ?_, ?_⟩
  · exact ((row_readers_substitute_defaults rejectAllCodec 0).1
      { id := "m", createdAt := "bad", lastAccessed := "bad", accessCount := 0,
        weight := 1, topic := "t", summary := "s", rawExcerpt := none,
        keywords := some "\x7boops", importance := "urgent", sourceType := "claude_code",
        sourceData := some "\x7boops", relatedIds := none }).1 (by decide)
  · exact (((row_readers_substitute_defaults rejectAllCodec 0).1
      { id := "m", createdAt := "bad", lastAccessed := "bad", accessCount := 0,
        weight := 1, topic := "t", summary := "s", rawExcerpt := none,
        keywords := some "\x7boops", importance := "urgent", sourceType := "claude_code",
        sourceData := some "\x7boops", relatedIds := none }).2).2.1 (by decide)
  · exact (((row_readers_substitute_defaults rejectAllCodec 0).1
      { id := "m", createdAt := "bad", lastAccessed := "bad", accessCount := 0,
        weight := 1, topic := "t", summary := "s", rawExcerpt := none,
        keywords := some "\x7boops", importance := "urgent", sourceType := "claude_code",
        sourceData := some "\x7boops", relatedIds := none }).2).2.2 (by decide) (by decide)
  · exact ((row_readers_substitute_defaults rejectAllCodec 0).2.1 freshConceptRow).1
      (by decide)
  · exact (row_readers_substitute_defaults rejectAllCodec 0).2.2
      { id := "l", sourceId := "a", targetId := "b", relation := "friend_of",
        weight := 1, createdAt := "t" } (by decide)

theorem reachWithinB_succ_of (db : Db) (root : String) (n : Nat) (x : String)
    (h : reachWithinB db root n x = true) : reachWithinB db root (n + 1) x = true := by
  simp [reachWithinB, h]

theorem reachWithinB_of_le (db : Db) (root : String) {n m : Nat} (hnm : n ≤ m)
    (x : String) (h : reachWithinB db root n x = true) :
    reachWithinB db root m x = true := by
  induction hnm with
  | refl => exact h
  | step _ ih => exact reachWithinB_succ_of db root _ x ih

theorem reachWithinB_adj (db : Db) (root : String) (n : Nat) {x y : String}
    (hadj : adjacentB db y x = true) (h : reachWithinB db root n y = true) :
    reachWithinB db root (n + 1) x = true := by
  obtain ⟨l, hl, hcase⟩ := List.any_eq_true.mp hadj
  simp only [Bool.or_eq_true, Bool.and_eq_true, beq_iff_eq] at hcase
  have : (db.links.any (fun l =>
      (l.targetId == x && reachWithinB db root n l.sourceId) ||
      (l.sourceId == x && reachWithinB db root n l.targetId))) = true := by
    refine List.any_eq_true.mpr ⟨l, hl, ?_⟩
    rcases hcase with ⟨hs, ht⟩ | ⟨ht, hs⟩
    · simp [hs, ht, h]
    · simp [hs, ht, h]
  simp [reachWithinB, this]

theorem getConcept_id (codec : Codec) (now : Int) (db : Db) (i : String)
    (c : Concept) (h : getConcept codec now db i = some c) : c.id = i := by
  obtain ⟨row, hfind, hconv⟩ := Option.map_eq_some'.mp h
  have := List.find?_some hfind
  simp only [beq_iff_eq] at this
  rw [← hconv]
  simpa [rowToConcept] using this

theorem bfsVisit_eq_of_visited (codec : Codec) (now : Int) (db : Db) (d : Nat)
    (nbId : ConceptLink → String) (st : BfsState) (link : ConceptLink)
    (hvis : st.visited.contains (nbId link) = true) :
    bfsVisit codec now db d nbId st link = { st with links := st.links ++ [link] } := by
  have hmem : nbId link ∈ st.visited := by
    simpa [List.contains, List.elem_iff] using hvis
  simp [bfsVisit, hmem]

theorem bfsVisit_eq_of_missing (codec : Codec) (now : Int) (db : Db) (d : Nat)
    (nbId : ConceptLink → String) (st : BfsState) (link : ConceptLink)
    (hvis : st.visited.contains (nbId link) = false)
    (hget : getConcept codec now db (nbId link) = none) :
    bfsVisit codec now db d nbId st link = { st with links := st.links ++ [link] } := by
  have hmem : nbId link ∉ st.visited := by
    intro hmem
    have : st.visited.contains (nbId link) = true := by
      simpa [List.contains, List.elem_iff] using hmem
    rw [this] at hvis
    cases hvis
  simp [bfsVisit, hmem, hget]

theorem bfsVisit_eq_of_fresh (codec : Codec) (now : Int) (db : Db) (d : Nat)
    (nbId : ConceptLink → String) (st : BfsState) (link : ConceptLink) (c : Concept)
    (hvis : st.visited.contains (nbId link) = false)
    (hget : getConcept codec now db (nbId link) = some c) :
    bfsVisit codec now db d nbId st link =
      { queue := st.queue ++ [(c.id, d + 1)], visited := c.id :: st.visited,
        concepts := st.concepts ++ [c], links := st.links ++ [link] } := by
  have hmem : nbId link ∉ st.visited := by
    intro hmem
    have : st.visited.contains (nbId link) = true := by
      simpa [List.contains, List.elem_iff] using hmem
    rw [this] at hvis
    cases hvis
  simp [bfsVisit, hmem, hget]

theorem bfsVisit_inv (codec : Codec) (now : Int) (db : Db) (root : String)
    (depth d : Nat) (hd : d < depth)
    (nbId : ConceptLink → String) (st : BfsState) (link : ConceptLink)
    (hreach : reachWithinB db root (d + 1) (nbId link) = true)
    (hinv : BfsInv db root depth st) :
    BfsInv db root depth (bfsVisit codec now db d nbId st link) := by
  obtain ⟨hq, hc, hnd, hv⟩ := hinv
  by_cases hvis : st.visited.contains (nbId link) = true
  · rw [bfsVisit_eq_of_visited codec now db d nbId st link hvis]
    exact ⟨hq, hc, hnd, hv⟩
  · rw [Bool.not_eq_true] at hvis
    cases hget : getConcept codec now db (nbId link) with
    | none =>
      rw [bfsVisit_eq_of_missing codec now db d nbId st link hvis hget]
      exact ⟨hq, hc, hnd, hv⟩
    | some c =>
      rw [bfsVisit_eq_of_fresh codec now db d nbId st link c hvis hget]
      have hcid : c.id = nbId link := getConcept_id codec now db _ c hget
      refine ⟨?_, ?_, ?_, ?_⟩
      · intro e he
        rcases List.mem_append.mp he with he | he
        · exact hq e he
        · rw [List.mem_singleton] at he
          subst he
          exact ⟨by rw [hcid]; exact hreach, hd⟩
      · intro c' hc'
        rcases List.mem_append.mp hc' with hc' | hc'
        · exact hc c' hc'
        · rw [List.mem_singleton] at hc'
          subst hc'
          exact reachWithinB_of_le db root (Nat.succ_le_of_lt hd) _
            (by rw [hcid]; exact hreach)
      · rw [List.map_append]
        refine List.Nodup.append hnd (by simp) ?_
        intro a ha hb
        simp only [List.map_cons, List.map_nil, List.mem_singleton] at hb
        subst hb
        obtain ⟨c', hc'mem, hc'id⟩ := List.mem_map.mp ha
        have hmem : c'.id ∈ st.visited := hv c' hc'mem
        rw [hc'id, hcid] at hmem
        have : st.visited.contains (nbId link) = true := by
          simpa [List.contains, List.elem_iff] using hmem
        rw [this] at hvis
        cases hvis
      · intro c' hc'
        rcases List.mem_append.mp hc' with hc' | hc'
        · exact List.mem_cons_of_mem _ (hv c' hc')
        · rw [List.mem_singleton] at hc'
          subst hc'
          exact List.mem_cons_self _ _

theorem getLinksFrom_adjacent (codec : Codec) (now : Int) (db : Db) (cid : String) :
    ∀ l ∈ getLinksFrom codec now db cid, adjacentB db cid l.targetId = true := by
  intro l hl
  obtain ⟨row, hrow, hconv⟩ := List.mem_map.mp hl
  obtain ⟨hmem, hsrc⟩ := List.mem_filter.mp hrow
  refine List.any_eq_true.mpr ⟨row, hmem, ?_⟩
  have h1 : row.sourceId = cid := by simpa using hsrc
  have h2 : l.targetId = row.targetId := by rw [← hconv]; rfl
  simp [h1, h2]

theorem getLinksTo_adjacent (codec : Codec) (now : Int) (db : Db) (cid : String) :
    ∀ l ∈ getLinksTo codec now db cid, adjacentB db cid l.sourceId = true := by
  intro l hl
  obtain ⟨row, hrow, hconv⟩ := List.mem_map.mp hl
  obtain ⟨hmem, htgt⟩ := List.mem_filter.mp hrow
  refine List.any_eq_true.mpr ⟨row, hmem, ?_⟩
  have h1 : row.targetId = cid := by simpa using htgt
  have h2 : l.sourceId = row.sourceId := by rw [← hconv]; rfl
  simp [h1, h2]

theorem bfsExpand_inv (codec : Codec) (now : Int) (db : Db) (root : String)
    (depth d : Nat) (hd : d < depth) (ccur : String)
    (hreach : reachWithinB db root d ccur = true)
    (nbId : ConceptLink → String) (links : List ConceptLink)
    (hadj : ∀ l ∈ links, adjacentB db ccur (nbId l) = true)
    (st : BfsState) (hinv : BfsInv db root depth st) :
    BfsInv db root depth (bfsExpand codec now db d nbId st links) := by
  induction links generalizing st with
  | nil => exact hinv
  | cons l rest ih =>
    exact ih (fun x hx => hadj x (List.mem_cons_of_mem _ hx)) _
      (bfsVisit_inv codec now db root depth d hd nbId st l
        (reachWithinB_adj db root d (hadj l (List.mem_cons_self _ _)) hreach) hinv)

theorem bfsLoop_inv (codec : Codec) (now : Int) (db : Db) (root : String)
    (depth : Nat) :
    ∀ fuel st, BfsInv db root depth st →
      (∀ c ∈ (bfsLoop codec now db depth fuel st).1,
        reachWithinB db root depth c.id = true) ∧
      ((bfsLoop codec now db depth fuel st).1.map (fun c => c.id)).Nodup := by
  intro fuel
  induction fuel with
  | zero =>
    intro st hinv
    exact ⟨hinv.2.1, hinv.2.2.1⟩
  | succ fuel ih =>
    rintro ⟨q, v, cs, ls⟩ hinv
    cases q with
    | nil => exact ⟨hinv.2.1, hinv.2.2.1⟩
    | cons e rest =>
      obtain ⟨cid', d'⟩ := e
      have hinvq : BfsInv db root depth ⟨rest, v, cs, ls⟩ :=
        ⟨fun x hx => hinv.1 x (List.mem_cons_of_mem _ hx), hinv.2.1, hinv.2.2.1,
          hinv.2.2.2⟩
      by_cases hdd : depth ≤ d'
      · show _ ∧ _
        simp only [bfsLoop, if_pos hdd]
        exact ih _ hinvq
      · have hd : d' < depth := Nat.lt_of_not_le hdd
        have hentry := hinv.1 (cid', d') (List.mem_cons_self _ _)
        have hreach : reachWithinB db root d' cid' = true := hentry.1
        simp only [bfsLoop, if_neg hdd]
        exact ih _
          (bfsExpand_inv codec now db root depth d' hd cid' hreach _ _
            (getLinksTo_adjacent codec now db cid') _
            (bfsExpand_inv codec now db root depth d' hd cid' hreach _ _
              (getLinksFrom_adjacent codec now db cid') _ hinvq))

theorem bfsVisit_concepts_mono (codec : Codec) (now : Int) (db : Db) (d : Nat)
    (nbId : ConceptLink → String) (st : BfsState) (link : ConceptLink)
    (c : Concept) (h : c ∈ st.concepts) :
    c ∈ (bfsVisit codec now db d nbId st link).concepts := by
  by_cases hvis : st.visited.contains (nbId link) = true
  · rw [bfsVisit_eq_of_visited codec now db d nbId st link hvis]
    exact h
  · rw [Bool.not_eq_true] at hvis
    cases hget : getConcept codec now db (nbId link) with
    | none =>
      rw [bfsVisit_eq_of_missing codec now db d nbId st link hvis hget]
      exact h
    | some c' =>
      rw [bfsVisit_eq_of_fresh codec now db d nbId st link c' hvis hget]
      exact List.mem_append_left _ h

theorem bfsExpand_concepts_mono (codec : Codec) (now : Int) (db : Db) (d : Nat)
    (nbId : ConceptLink → String) (links : List ConceptLink) :
    ∀ st (c : Concept), c ∈ st.concepts →
      c ∈ (bfsExpand codec now db d nbId st links).concepts := by
  induction links with
  | nil => intro st c h; exact h
  | cons l rest ih =>
    intro st c h
    exact ih _ c (bfsVisit_concepts_mono codec now db d nbId st l c h)

theorem bfsLoop_concepts_mono (codec : Codec) (now : Int) (db : Db) (depth : Nat) :
    ∀ fuel st (c : Concept), c ∈ st.concepts →
      c ∈ (bfsLoop codec now db depth fuel st).1 := by
  intro fuel
  induction fuel with
  | zero => intro st c h; exact h
  | succ fuel ih =>
    rintro ⟨q, v, cs, ls⟩ c h
    cases q with
    | nil => exact h
    | cons e rest =>
      obtain ⟨cid', d'⟩ := e
      by_cases hdd : depth ≤ d'
      · simp only [bfsLoop, if_pos hdd]
        exact ih _ c h
      · simp only [bfsLoop, if_neg hdd]
        exact ih _ c
          (bfsExpand_concepts_mono codec now db d' _ _ _ c
            (bfsExpand_concepts_mono codec now db d' _ _ _ c h))

/-- C3 (amended): `get_neighborhood(root, k)` is NotFound exactly when the
seed has no row; otherwise it returns a concept list that contains the seed,
contains no concept beyond undirected distance `k` from the seed, and repeats
no concept; the returned link list, however, may repeat a link (each link is
recorded from both of its endpoints when both are expanded — see the
counterexample theorem). -/
theorem get_neighborhood_contract (codec : Codec) (now : Int) (db : Db)
    (cid : String) (depth : Nat) :
    (getConcept codec now db cid = none →
      getNeighborhood codec now db cid depth = .error (.notFound cid)) ∧
    (∀ root, getConcept codec now db cid = some root →
      ∃ cs ls, getNeighborhood codec now db cid depth = .ok (cs, ls) ∧
        root ∈ cs ∧
        (∀ c ∈ cs, reachWithinB db cid depth c.id = true) ∧
        (cs.map (fun c => c.id)).Nodup) := by
  constructor
  · intro hnone
    rw [getNeighborhood, hnone]
  · intro root hroot
    have hrootid : root.id = cid := getConcept_id codec now db cid root hroot
    have hinv0 : BfsInv db cid depth
        ⟨[(root.id, 0)], [root.id], [root], []⟩ := by
      refine ⟨?_, ?_, ?_, ?_⟩
      · intro e he
        rw [List.mem_singleton] at he
        subst he
        exact ⟨by simp [reachWithinB, hrootid], Nat.zero_le _⟩
      · intro c hc
        rw [List.mem_singleton] at hc
        subst hc
        exact reachWithinB_of_le db cid (Nat.zero_le _) _
          (by simp [reachWithinB, hrootid])
      · simp
      · intro c hc
        rw [List.mem_singleton] at hc
        subst hc
        simp
    have hmain := bfsLoop_inv codec now db cid depth (db.concepts.length + 2)
      ⟨[(root.id, 0)], [root.id], [root], []⟩ hinv0
    refine ⟨(bfsLoop codec now db depth (db.concepts.length + 2)
        ⟨[(root.id, 0)], [root.id], [root], []⟩).1,
      (bfsLoop codec now db depth (db.concepts.length + 2)
        ⟨[(root.id, 0)], [root.id], [root], []⟩).2, ?_, ?_, hmain.1, hmain.2⟩
    · rw [getNeighborhood, hroot]
    · exact bfsLoop_concepts_mono codec now db depth _ _ root (by simp)

/-- C3 counterexample: on the two-concept graph with the single link `a → b`,
`get_neighborhood(a, 2)` returns that one link twice — once while expanding
`a` (as outgoing) and once while expanding `b` (as incoming) — so the claim
that each link appears at most once in the output is false. -/
theorem get_neighborhood_repeats_link :
    (getNeighborhood rejectAllCodec 0 nbhdDb "a" 2).toOption.map
      (fun p => p.2.count (rowToLink rejectAllCodec 0 nbhdLink)) = some 2 := by
  decide

/-- Witness for C3's amended contract on the same graph: an absent seed is
NotFound, and from seed `a` at depth 2 the returned concepts contain `a`, are
all within two undirected hops of `a`, and repeat no concept. -/
theorem get_neighborhood_contract_witness :
    (getNeighborhood rejectAllCodec 0 nbhdDb "zz" 2 = .error (.notFound "zz")) ∧
    (∃ cs ls, getNeighborhood rejectAllCodec 0 nbhdDb "a" 2 = .ok (cs, ls) ∧
      rowToConcept rejectAllCodec 0 nbhdConceptA ∈ cs ∧
      (∀ c ∈ cs, reachWithinB nbhdDb "a" 2 c.id = true) ∧
      (cs.map (fun c => c.id)).Nodup) :=
  ⟨(get_neighborhood_contract rejectAllCodec 0 nbhdDb "zz" 2).1 (by decide),
   (get_neighborhood_contract rejectAllCodec 0 nbhdDb "a" 2).2
     (rowToConcept rejectAllCodec 0 nbhdConceptA) (by decide)⟩

/-- C7 counterexample: the term `a%b` is passed into an SQL LIKE pattern
unescaped, so `%` acts as a wildcard: the memory with topic `acb` is returned
although `a%b` is not a substring of any of its keywords, its summary or its
topic — the claim's substring characterisation of matching is false. -/
theorem search_by_keywords_wildcard_not_substring :
    searchByKeywords rejectAllCodec 0 ["a%b"] 10 likeDb
      = [rowToMemory rejectAllCodec 0 likeRow] ∧
    claimKeywordMatch ["a%b"] (rowToMemory rejectAllCodec 0 likeRow) = false := by
  constructor
  · have hfilter : likeDb.memories.filter (rowMatchesAny ["a%b"]) = [likeRow] := by
      decide
    simp only [searchByKeywords, hfilter]
    simp
  · decide

theorem weightLe_trans :
    ∀ a b c : MemRow, decide (b.weight ≤ a.weight) = true →
      decide (c.weight ≤ b.weight) = true → decide (c.weight ≤ a.weight) = true := by
  intro a b c h1 h2
  rw [decide_eq_true_iff] at *
  exact le_trans h2 h1

theorem weightLe_total :
    ∀ a b : MemRow,
      (decide (b.weight ≤ a.weight) || decide (a.weight ≤ b.weight)) = true := by
  intro a b
  rcases le_total b.weight a.weight with h | h
  · simp [h]
  · simp [h]

/-- C7 (amended): for a non-empty term list, `search_by_keywords(terms, k)`
returns memories converted from rows matched by the SQL predicate — each term
wrapped in `%…%` and interpreted as a LIKE pattern (so `%`/`_` are wildcards,
comparison is case-insensitive, and the keywords column is matched in its
JSON-encoded stored form, NULL matching nothing) — ordered by descending
weight, truncated to `k`, and omitting only rows that do not outweigh any
returned one. -/
theorem search_by_keywords_like_contract (codec : Codec) (now : Int)
    (terms : List String) (limit : Nat) (db : Db) (hne : terms ≠ []) :
    (∀ m ∈ searchByKeywords codec now terms limit db,
      ∃ row ∈ db.memories, rowMatchesAny terms row = true ∧
        rowToMemory codec now row = m) ∧
    (searchByKeywords codec now terms limit db).Pairwise
      (fun a b => b.weight ≤ a.weight) ∧
    (searchByKeywords codec now terms limit db).length
      = min limit (db.memories.countP (rowMatchesAny terms)) ∧
    (∀ row ∈ db.memories, rowMatchesAny terms row = true →
      rowToMemory codec now row ∉ searchByKeywords codec now terms limit db →
      ∀ m ∈ searchByKeywords codec now terms limit db, row.weight ≤ m.weight) := by
  have hne' : terms.isEmpty = false := by
    cases terms with
    | nil => exact absurd rfl hne
    | cons a l => rfl
  have hunfold : searchByKeywords codec now terms limit db
      = ((((db.memories.filter (rowMatchesAny terms)).mergeSort
          (fun a b => decide (b.weight ≤ a.weight))).take limit).map
        (rowToMemory codec now)) := by
    rw [searchByKeywords, hne']
    rfl
  have hperm := List.mergeSort_perm (db.memories.filter (rowMatchesAny terms))
    (fun a b => decide (b.weight ≤ a.weight))
  have hsorted := @List.sorted_mergeSort MemRow
    (fun a b : MemRow => decide (b.weight ≤ a.weight))
    weightLe_trans weightLe_total (db.memories.filter (rowMatchesAny terms))
  have hsorted' : ((db.memories.filter (rowMatchesAny terms)).mergeSort
      (fun a b => decide (b.weight ≤ a.weight))).Pairwise
      (fun a b : MemRow => b.weight ≤ a.weight) :=
    hsorted.imp (fun h => by rwa [decide_eq_true_iff] at h)
  refine ⟨?_, ?_, ?_, ?_⟩
  · intro m hm
    rw [hunfold] at hm
    obtain ⟨row, hrow, hconv⟩ := List.mem_map.mp hm
    have hrow2 : row ∈ (db.memories.filter (rowMatchesAny terms)).mergeSort
        (fun a b => decide (b.weight ≤ a.weight)) :=
      List.mem_of_mem_take hrow
    have hrow3 : row ∈ db.memories.filter (rowMatchesAny terms) :=
      hperm.mem_iff.mp hrow2
    obtain ⟨hrow4, hrow5⟩ := List.mem_filter.mp hrow3
    exact ⟨row, hrow4, hrow5, hconv⟩
  · rw [hunfold]
    rw [List.pairwise_map]
    exact (hsorted'.sublist (List.take_sublist _ _)).imp (fun h => h)
  · rw [hunfold, List.length_map, List.length_take, hperm.length_eq,
      List.countP_eq_length_filter]
  · intro row hrowmem hrowmatch hnotin m hm
    rw [hunfold] at hm hnotin
    obtain ⟨r', hr'take, hr'conv⟩ := List.mem_map.mp hm
    have hrow3 : row ∈ (db.memories.filter (rowMatchesAny terms)).mergeSort
        (fun a b => decide (b.weight ≤ a.weight)) :=
      hperm.mem_iff.mpr (List.mem_filter.mpr ⟨hrowmem, hrowmatch⟩)
    have hsplit : row ∈ ((db.memories.filter (rowMatchesAny terms)).mergeSort
          (fun a b => decide (b.weight ≤ a.weight))).take limit ++
        ((db.memories.filter (rowMatchesAny terms)).mergeSort
          (fun a b => decide (b.weight ≤ a.weight))).drop limit := by
      rw [List.take_append_drop]
      exact hrow3
    have hrowdrop : row ∈ ((db.memories.filter (rowMatchesAny terms)).mergeSort
        (fun a b => decide (b.weight ≤ a.weight))).drop limit := by
      rcases List.mem_append.mp hsplit with h | h
      · exact absurd (List.mem_map_of_mem (rowToMemory codec now) h) hnotin
      · exact h
    have hw : r'.weight ≥ row.weight :=
      hsorted'.rel_of_mem_take_of_mem_drop hr'take hrowdrop
    rw [← hr'conv]
    exact hw

/-- Witness for C7 at the one-row store: searching for `a%b` with limit 10
returns the row, sorted, of length `min 10 1`, with nothing outweighing it. -/
theorem search_by_keywords_like_contract_witness :
    (∀ m ∈ searchByKeywords rejectAllCodec 0 ["a%b"] 10 likeDb,
      ∃ row ∈ likeDb.memories, rowMatchesAny ["a%b"] row = true ∧
        rowToMemory rejectAllCodec 0 row = m) ∧
    (searchByKeywords rejectAllCodec 0 ["a%b"] 10 likeDb).Pairwise
      (fun a b => b.weight ≤ a.weight) ∧
    (searchByKeywords rejectAllCodec 0 ["a%b"] 10 likeDb).length
      = min 10 (likeDb.memories.countP (rowMatchesAny ["a%b"])) ∧
    (∀ row ∈ likeDb.memories, rowMatchesAny ["a%b"] row = true →
      rowToMemory rejectAllCodec 0 row ∉ searchByKeywords rejectAllCodec 0 ["a%b"] 10 likeDb →
      ∀ m ∈ searchByKeywords rejectAllCodec 0 ["a%b"] 10 likeDb, row.weight ≤ m.weight) :=
  search_by_keywords_like_contract rejectAllCodec 0 ["a%b"] 10 likeDb (by decide)

/-- C6 (amended): for a line that is non-blank after trimming, a parse
failure is answered with a response whose id is null and whose error code is
`-32700`; a parsed request with an id and a method outside the four known
ones is answered with the same id and error code `-32601`; a parsed
notification (no id) produces no output at all — but a blank line, although
unparseable, is skipped silently (see the counterexample theorem). -/
theorem process_line_protocol_faults (deps : ServerDeps)
    (parse : String → Except String JsonRpcMessage) (line : String) :
    (∀ e, (trimChars line).isEmpty = false → parse (trimChars line) = .error e →
      processLine deps parse line
        = some (rpcErr .null (-32700) ("parse error: " ++ e)) ∧
      (rpcErr .null (-32700) ("parse error: " ++ e)).id = .null ∧
      ((rpcErr .null (-32700) ("parse error: " ++ e)).error.map
        (fun er => er.code)) = some (-32700)) ∧
    (∀ msg i, (trimChars line).isEmpty = false → parse (trimChars line) = .ok msg →
      msg.id = some i →
      (msg.method.getD "") ∉
        (["initialize", "ping", "tools/list", "tools/call"] : List String) →
      processLine deps parse line = some (methodNotFound i (msg.method.getD "")) ∧
      (methodNotFound i (msg.method.getD "")).id = i ∧
      ((methodNotFound i (msg.method.getD "")).error.map (fun er => er.code))
        = some (-32601)) ∧
    (∀ msg, parse (trimChars line) = .ok msg → msg.id = none →
      processLine deps parse line = none) := by
  refine ⟨?_, ?_, ?_⟩
  · intro e hne hparse
    refine ⟨?_, rfl, rfl⟩
    simp only [processLine, hne, Bool.false_eq_true, if_false, hparse]
  · intro msg i hne hparse hid hmeth
    simp only [List.mem_cons, List.mem_singleton, not_or] at hmeth
    obtain ⟨h1, h2, h3, h4, _⟩ := hmeth
    refine ⟨?_, rfl, rfl⟩
    simp only [processLine, hne, Bool.false_eq_true, if_false, hparse, hid,
      if_neg h1, if_neg h2, if_neg h3, if_neg h4]
  · intro msg hparse hid
    by_cases hne : (trimChars line).isEmpty = true
    · simp only [processLine, hne, if_true]
    · rw [Bool.not_eq_true] at hne
      simp only [processLine, hne, Bool.false_eq_true, if_false, hparse, hid]

/-- C6 counterexample: the empty line is not parseable JSON-RPC, yet the
server skips it before ever parsing (`if line.is_empty() { continue; }`) and
emits no `-32700` response, so the claim quantified over every input line is
false. -/
theorem blank_line_skipped_silently :
    failParse "" = .error "EOF while parsing a value at line 1 column 0" ∧
    processLine trivialDeps failParse "" = none := by
  refine ⟨rfl, ?_⟩
  have h : (trimChars "").isEmpty = true := by decide
  simp only [processLine, h, if_true]

/-- Witness for C6 at concrete lines: a garbage line gets `-32700`/null, an
unknown method gets `-32601` with its id, and a notification is silent. -/
theorem process_line_protocol_faults_witness :
    (processLine trivialDeps failParse "not json"
        = some (rpcErr .null (-32700)
          ("parse error: " ++ "EOF while parsing a value at line 1 column 0")) ∧
      (rpcErr .null (-32700)
        ("parse error: " ++ "EOF while parsing a value at line 1 column 0")).id
        = .null ∧
      ((rpcErr .null (-32700)
        ("parse error: " ++ "EOF while parsing a value at line 1 column 0")).error.map
        (fun er => er.code)) = some (-32700)) ∧
    (processLine trivialDeps
        (fun _ => .ok { jsonrpc := "2.0", id := some (.num 2), method := some "bogus",
                        params := none })
        "\x7b\"jsonrpc\":\"2.0\",\"id\":2,\"method\":\"bogus\"\x7d"
      = some (methodNotFound (.num 2) "bogus")) ∧
    (processLine trivialDeps
        (fun _ => .ok { jsonrpc := "2.0", id := none, method := some "ping",
                        params := none })
        "\x7b\"jsonrpc\":\"2.0\",\"method\":\"ping\"\x7d" = none) := by
  refine ⟨?_, ?_, ?_⟩
  · exact (process_line_protocol_faults trivialDeps failParse "not json").1
      "EOF while parsing a value at line 1 column 0" (by decide) rfl
  · have h := ((process_line_protocol_faults trivialDeps
      (fun _ => .ok { jsonrpc := "2.0", id := some (.num 2), method := some "bogus",
                      params := none })
      "\x7b\"jsonrpc\":\"2.0\",\"id\":2,\"method\":\"bogus\"\x7d").2.1
      { jsonrpc := "2.0", id := some (.num 2), method := some "bogus", params := none }
      (.num 2) (by decide) rfl rfl (by decide)).1
    exact h
  · exact (process_line_protocol_faults trivialDeps
      (fun _ => .ok { jsonrpc := "2.0", id := none, method := some "ping",
                      params := none })
      "\x7b\"jsonrpc\":\"2.0\",\"method\":\"ping\"\x7d").2.2
      { jsonrpc := "2.0", id := none, method := some "ping", params := none } rfl rfl

theorem dedupStep_fold_topic (project : String)
    (entries : List (ℚ × String × Importance)) :
    ∀ acc, (∀ f ∈ acc, f.1 = "context-" ++ project) →
      ∀ f ∈ entries.foldl (dedupStep project) acc, f.1 = "context-" ++ project := by
  induction entries with
  | nil => intro acc hacc f hf; exact hacc f hf
  | cons e rest ih =>
    intro acc hacc
    refine ih (dedupStep project acc e) ?_
    intro f hf
    unfold dedupStep at hf
    by_cases hdom : acc.any (fun f => jaccardSimilar f.2.1 e.2.1) = true
    · rw [if_pos hdom] at hf
      exact hacc f hf
    · rw [Bool.not_eq_true] at hdom
      rw [if_neg (by rw [hdom]; simp)] at hf
      rcases List.mem_append.mp hf with h | h
      · exact hacc f h
      · rw [List.mem_singleton] at h
        subst h
        rfl

theorem dedupStep_fold_pairwise (project : String)
    (entries : List (ℚ × String × Importance)) :
    ∀ acc, acc.Pairwise (fun f g => jaccardSimilar f.2.1 g.2.1 = false) →
      (entries.foldl (dedupStep project) acc).Pairwise
        (fun f g => jaccardSimilar f.2.1 g.2.1 = false) := by
  induction entries with
  | nil => intro acc hacc; exact hacc
  | cons e rest ih =>
    intro acc hacc
    refine ih (dedupStep project acc e) ?_
    unfold dedupStep
    by_cases hdom : acc.any (fun f => jaccardSimilar f.2.1 e.2.1) = true
    · rw [if_pos hdom]
      exact hacc
    · rw [Bool.not_eq_true] at hdom
      rw [if_neg (by rw [hdom]; simp)]
      rw [List.pairwise_append]
      refine ⟨hacc, List.pairwise_singleton _ _, ?_⟩
      intro f hf g hg
      rw [List.mem_singleton] at hg
      subst hg
      have := List.any_eq_false.mp hdom f hf
      simpa using this

/-- C8: the fact extractor is a pure function (identical inputs give
identical output sequences), returns at most 20 triples, tags every triple
with topic `context-{project}`, and no kept content is Jaccard-similar
(similarity above 0.6) to any earlier kept content — together with the
symmetry of Jaccard similarity, no two outputs are similar. -/
theorem extract_facts_contract (text project : String) :
    extractFacts text project = extractFacts text project ∧
    (extractFacts text project).length ≤ 20 ∧
    (∀ f ∈ extractFacts text project, f.1 = "context-" ++ project) ∧
    (extractFacts text project).Pairwise
      (fun f g => jaccardSimilar f.2.1 g.2.1 = false) := by
  refine ⟨rfl, ?_, ?_, ?_⟩
  · exact le_trans (List.length_take_le _ _) (le_refl 20)
  · intro f hf
    have hf' := List.mem_of_mem_take hf
    exact dedupStep_fold_topic project _ [] (by intro f h; cases h) f hf'
  · exact (dedupStep_fold_pairwise project _ [] List.Pairwise.nil).sublist
      (List.take_sublist _ _) |>.imp (fun h => h)

end Icm

